import Mathlib

/-!
Verification of the FRED rate-cut analysis core (`app.py`).

Shallow embedding of the analytical core of the dashboard:

* `find_cut_cycles` (rate-cut cycle detection, `app.py` lines 59-70),
* the pass-through lag computation (tab 1 table loop, lines 163-183),
* the pre/post growth computation (tab 3 table loop, lines 296-315),
* the module-level no-cycles guard (lines 113-117).

Timestamps are modelled as integer day ordinals (days since the Unix
epoch): pandas `Timestamp`s produced by `resample("MS")` are midnights,
so `(dt - prev).days` is exactly the difference of the two ordinals.
Values are rationals; a possibly-missing (NaN) value is `Option ℚ`.
`pd.DateOffset(months=k)` is modelled by real calendar arithmetic
(`addMonths`) on day ordinals, with the day-of-month clamped to the
target month's length, as pandas does.
-/

namespace FredApp

/-! ## Calendar arithmetic (model of `pd.DateOffset(months=k)`) -/

/-- Gregorian leap-year test. -/
def isLeap (y : Int) : Bool :=
  (Int.fmod y 4 == 0 && Int.fmod y 100 != 0) || Int.fmod y 400 == 0

/-- Number of days in month `m` (1-based) of year `y`. -/
def daysInMonth (y m : Int) : Int :=
  if m = 2 then (if isLeap y then 29 else 28)
  else if m = 4 ∨ m = 6 ∨ m = 9 ∨ m = 11 then 30
  else 31

/-- Day ordinal (days since 1970-01-01) of the civil date `y-m-d`
(Hinnant's `days_from_civil`, with floor division). -/
def daysFromCivil (y m d : Int) : Int :=
  let y' := if m ≤ 2 then y - 1 else y
  let era := Int.fdiv y' 400
  let yoe := y' - era * 400
  let mp := Int.fmod (m + 9) 12
  let doy := Int.fdiv (153 * mp + 2) 5 + d - 1
  let doe := yoe * 365 + Int.fdiv yoe 4 - Int.fdiv yoe 100 + doy
  era * 146097 + doe - 719468

/-- Civil date `(y, m, d)` of a day ordinal (Hinnant's `civil_from_days`). -/
def civilFromDays (z : Int) : Int × Int × Int :=
  let z' := z + 719468
  let era := Int.fdiv z' 146097
  let doe := z' - era * 146097
  let yoe := Int.fdiv (doe - Int.fdiv doe 1460 + Int.fdiv doe 36524 - Int.fdiv doe 146096) 365
  let y := yoe + era * 400
  let doy := doe - (365 * yoe + Int.fdiv yoe 4 - Int.fdiv yoe 100)
  let mp := Int.fdiv (5 * doy + 2) 153
  let d := doy - Int.fdiv (153 * mp + 2) 5 + 1
  let m := if mp < 10 then mp + 3 else mp - 9
  (if m ≤ 2 then y + 1 else y, m, d)

/-- The shift `t + pd.DateOffset(months=k)` on a day ordinal `t`: shift the
month index by `k` and clamp the day of month to the target month's length. -/
def addMonths (t k : Int) : Int :=
  let c := civilFromDays t
  let mi := c.1 * 12 + (c.2.1 - 1) + k
  let y2 := Int.fdiv mi 12
  let m2 := Int.fmod mi 12 + 1
  daysFromCivil y2 m2 (min c.2.2 (daysInMonth y2 m2))

/-! ## Cycle detection (`find_cut_cycles`, app.py lines 59-70)

The FEDFUNDS input of `find_cut_cycles` comes from `fetch`, which ends in
`.ffill().dropna()`, so it carries no missing values: it is a
`List (Int × ℚ)` of (day ordinal, rate) pairs in index order. -/

/-- Model of `fedfunds.diff().dropna()` for a NaN-free series: the list of
`(tᵢ₊₁, vᵢ₊₁ - vᵢ)` pairs (the first observation has no difference). -/
def diff : List (Int × ℚ) → List (Int × ℚ)
  | [] => []
  | [_] => []
  | a :: b :: rest => (b.1, b.2 - a.2) :: diff (b :: rest)

/-- Model of `delta[delta < -0.05].index`: timestamps of the
strictly-sub-threshold month-over-month differences, in index order. -/
def cutMonths (fedfunds : List (Int × ℚ)) : List Int :=
  ((diff fedfunds).filter (fun p => decide (p.2 < -(5/100 : ℚ)))).map Prod.fst

/-- The `for dt in cut_months` loop of `find_cut_cycles`: `prev` is the
previously seen cut month (not the previously emitted cycle start); a cut
month is emitted when there is no previous one or the gap exceeds 180 days. -/
def cycleLoop : List Int → Option Int → List Int
  | [], _ => []
  | dt :: rest, none => dt :: cycleLoop rest (some dt)
  | dt :: rest, some prev =>
      if 180 < dt - prev then dt :: cycleLoop rest (some dt)
      else cycleLoop rest (some dt)

/-- Python `l[-n:]` for a natural `n` (for `n = 0` it is the whole list). -/
def pyLastN (l : List α) (n : Nat) : List α :=
  if n = 0 then l else l.drop (l.length - n)

/-- Model of `find_cut_cycles(fedfunds, n)` (app.py lines 59-70); the
module-level call passes the default `n = 3`. -/
def find_cut_cycles (fedfunds : List (Int × ℚ)) (n : Nat) : List Int :=
  let cut_months := cutMonths fedfunds
  if cut_months.isEmpty then [] else pyLastN (cycleLoop cut_months none) n

/-! ## Pass-through lag (tab 1 table loop, app.py lines 163-183)

The comparison series here may in principle carry missing values, so an
observation is `(Int × Option ℚ)` (`none` models NaN). -/

/-- Result of one lag computation: `"n/a"`, `f"{idx} mo"`, or `">24 mo"`. -/
inductive LagResult where
  | na
  | lag (n : Nat)
  | exceedsWindow
  deriving DecidableEq, Repr

/-- Model of `series.asof(dt)`: the last non-NaN value at or before `dt`
(pandas `asof` requires a sorted index; on a sorted list this is the
latest qualifying observation). `none` models the NaN return. -/
def asof (series : List (Int × Option ℚ)) (dt : Int) : Option ℚ :=
  ((series.filter (fun p => decide (p.1 ≤ dt) && p.2.isSome)).getLast?).bind Prod.snd

/-- Model of `post = series[series.index >= dt].head(24)`. -/
def postWindow (series : List (Int × Option ℚ)) (dt : Int) : List (Int × Option ℚ) :=
  (series.filter (fun p => decide (dt ≤ p.1))).take 24

/-- The condition of the generator in the lag loop:
`not pd.isna(v) and (v - base) <= -0.25`. -/
def qualifies (base : ℚ) : Option ℚ → Bool
  | some v => decide (v - base ≤ -(1/4 : ℚ))
  | none => false

/-- Model of `next((j for j, v in enumerate(vs) if p v), None)`, with the
enumeration starting at `j`. -/
def firstIdxFrom (p : α → Bool) : List α → Nat → Option Nat
  | [], _ => none
  | a :: as, j => if p a then some j else firstIdxFrom p as (j + 1)

/-- The per-(cycle, series) lag computation of app.py lines 172-182. -/
def passThroughLag (series : List (Int × Option ℚ)) (dt : Int) : LagResult :=
  match asof series dt with
  | none => .na
  | some base =>
      match firstIdxFrom (fun p => qualifies base p.2) (postWindow series dt) 0 with
      | some j => .lag j
      | none => .exceedsWindow

/-! ## Pre/post growth (tab 3 table loop, app.py lines 296-315)

The spending series come straight from `fetch` (NaN-free), so their
observations are `(Int × ℚ)`. -/

/-- Model of `series.mean()` for a NaN-free series: sum of values over length. -/
def meanVals (l : List (Int × ℚ)) : ℚ :=
  (l.map Prod.snd).sum / (l.length : ℚ)

/-- Model of `series[(series.index > dt) & (series.index <= dt + DateOffset(months=12))]`. -/
def postWindowG (series : List (Int × ℚ)) (dt : Int) : List (Int × ℚ) :=
  series.filter (fun p => decide (dt < p.1) && decide (p.1 ≤ addMonths dt 12))

/-- Model of `series[(series.index > dt - DateOffset(months=12)) & (series.index <= dt)]`. -/
def preWindow (series : List (Int × ℚ)) (dt : Int) : List (Int × ℚ) :=
  series.filter (fun p => decide (addMonths dt (-12) < p.1) && decide (p.1 ≤ dt))

/-- The per-(cycle, series) growth computation of app.py lines 301-315:
a row is produced only when both windows are non-empty and the pre-window
mean is non-zero, and then carries `(post.mean() - pre.mean()) / pre.mean() * 100`. -/
def prePostGrowth (series : List (Int × ℚ)) (dt : Int) : Option ℚ :=
  let post := postWindowG series dt
  let pre := preWindow series dt
  if post ≠ [] ∧ pre ≠ [] ∧ meanVals pre ≠ 0 then
    some ((meanVals post - meanVals pre) / meanVals pre * 100)
  else none

/-! ## Module-level control flow (app.py lines 111-117 and the table loops)

Rows are keyed by (cycle index, series index) rather than the formatted
string labels; the string formatting is presentation only. -/

/-- The lag table rows (app.py lines 163-183): one row per
(cycle, non-empty series) pair. -/
def lagTable (cut_dates : List Int) (ss : List (List (Int × Option ℚ))) :
    List ((Nat × Nat) × LagResult) :=
  (cut_dates.enum.map (fun c =>
    ss.enum.filterMap (fun s =>
      if s.2.isEmpty then none
      else some ((c.1, s.1), passThroughLag s.2 c.2)))).flatten

/-- The growth table rows (app.py lines 295-315): one row per
(cycle, non-empty series) pair whose guard passes. -/
def growthTable (cut_dates : List Int) (ss : List (List (Int × ℚ))) :
    List ((Nat × Nat) × ℚ) :=
  (cut_dates.enum.map (fun c =>
    ss.enum.filterMap (fun s =>
      if s.2.isEmpty then none
      else (prePostGrowth s.2 c.2).map (fun pct => ((c.1, s.1), pct))))).flatten

/-- The module-level flow around the analysis: detect cycles from FEDFUNDS
and stop (`st.stop()`, modelled as `none`) when none are found; otherwise
produce the lag and growth tables (app.py lines 111-117, 163-183, 295-315). -/
def appMain (fedfunds : List (Int × ℚ))
    (mortgage dprime : List (Int × Option ℚ))
    (rsxfs pce : List (Int × ℚ)) :
    Option (List ((Nat × Nat) × LagResult) × List ((Nat × Nat) × ℚ)) :=
  let cut_dates := find_cut_cycles fedfunds 3
  if cut_dates.isEmpty then none
  else some (lagTable cut_dates [mortgage, dprime], growthTable cut_dates [rsxfs, pce])

/-! ## Sortedness and concrete inputs

The index of a pandas series is strictly increasing (the FRED series are
resampled to month starts), so a well-formed series has pairwise strictly
increasing timestamps.  The `ex…` lists below are concrete inputs used to
witness the theorems; they realise the worked examples of the specification. -/

/-- Strictly increasing timestamps: the well-formedness of a series index. -/
abbrev SortedFst (l : List (Int × α)) : Prop :=
  List.Pairwise (fun p q => p.1 < q.1) l

/-- A policy-rate series with a burst of cuts at days 31 and 62 and a second
burst at days 400 and 431 (more than 180 days later). -/
def exFed : List (Int × ℚ) :=
  [(0, 5), (31, 4), (62, 3), (400, 2), (431, 1)]

/-- The lag worked example: base value 6.5 at the cycle start, then monthly
values 6.4, 6.3, 6.2; the first drop of at least 0.25 is at offset 3. -/
def exLag : List (Int × Option ℚ) :=
  [(0, some 6.5), (30, some 6.4), (60, some 6.3), (90, some 6.2)]

/-- A comparison series with a missing observation (offset 1) before the
qualifying decline (offset 2). -/
def exLagNaN : List (Int × Option ℚ) :=
  [(0, some 10), (30, none), (60, some 9)]

/-- The series `exLagNaN` without its missing observation: the qualifying
decline is then at offset 1. -/
def exLagNoNaN : List (Int × Option ℚ) :=
  [(0, some 10), (60, some 9)]

/-- A series with an observation exactly at the cycle start (day 0). -/
def exAtStart : List (Int × Option ℚ) :=
  [(0, some 5), (30, some 4)]

/-- The growth worked example: pre-window mean 100, post-window mean 110
around the cycle start 2000-01-01 (day ordinal 10957). -/
def exGrowth : List (Int × ℚ) :=
  [(10957, 100), (11000, 110)]

/-- A series whose pre-window mean is zero while post-window data exists. -/
def exGrowthZero : List (Int × ℚ) :=
  [(10957, 0), (11000, 110)]

/-! ## Properties of `diff` and `cutMonths` -/

theorem length_diff (f : List (Int × ℚ)) : (diff f).length = f.length - 1 := by
  induction f with
  | nil => simp [diff]
  | cons a t ih =>
    cases t with
    | nil => simp [diff]
    | cons b rest =>
      simp only [diff, List.length_cons] at ih ⊢
      omega

theorem diff_getElem_some (f : List (Int × ℚ)) (i : Nat) (a b : Int × ℚ)
    (ha : f[i]? = some a) (hb : f[i + 1]? = some b) :
    (diff f)[i]? = some (b.1, b.2 - a.2) := by
  induction f generalizing i with
  | nil => simp at ha
  | cons x t ih =>
    cases t with
    | nil =>
      cases i with
      | zero => simp at hb
      | succ i => simp at ha
    | cons y rest =>
      cases i with
      | zero =>
        simp only [List.getElem?_cons_zero] at ha
        simp only [List.getElem?_cons_succ, List.getElem?_cons_zero] at hb
        cases ha; cases hb
        simp [diff]
      | succ i =>
        rw [List.getElem?_cons_succ] at ha hb
        simpa [diff] using ih i ha hb

theorem mem_cutMonths (f : List (Int × ℚ)) (t : Int) :
    t ∈ cutMonths f ↔ ∃ d, (t, d) ∈ diff f ∧ d < -(5/100 : ℚ) := by
  simp only [cutMonths, List.mem_map, List.mem_filter, decide_eq_true_eq]
  constructor
  · rintro ⟨⟨t', d⟩, ⟨hmem, hd⟩, rfl⟩
    exact ⟨d, hmem, hd⟩
  · rintro ⟨d, hmem, hd⟩
    exact ⟨(t, d), ⟨hmem, hd⟩, rfl⟩

theorem map_fst_diff (f : List (Int × ℚ)) :
    (diff f).map Prod.fst = (f.map Prod.fst).tail := by
  induction f with
  | nil => simp [diff]
  | cons a t ih =>
    cases t with
    | nil => simp [diff]
    | cons b rest =>
      simp only [diff, List.map_cons, List.tail_cons] at ih ⊢
      rw [ih]

theorem sortedFst_diff (f : List (Int × ℚ)) (hs : SortedFst f) : SortedFst (diff f) := by
  have h1 : List.Pairwise (· < ·) (f.map Prod.fst) := List.pairwise_map.mpr hs
  have h2 : List.Pairwise (· < ·) ((diff f).map Prod.fst) := by
    rw [map_fst_diff]
    exact List.Pairwise.sublist (List.tail_sublist _) h1
  exact List.pairwise_map.mp h2

theorem pairwise_cutMonths (f : List (Int × ℚ)) (hs : SortedFst f) :
    List.Pairwise (· < ·) (cutMonths f) := by
  have h3 : SortedFst ((diff f).filter (fun p => decide (p.2 < -(5/100 : ℚ)))) :=
    List.Pairwise.sublist (List.filter_sublist _) (sortedFst_diff f hs)
  exact List.pairwise_map.mpr h3

theorem chain_cutMonths (f : List (Int × ℚ)) (hs : SortedFst f) :
    List.Chain' (· < ·) (cutMonths f) :=
  List.chain'_iff_pairwise.mpr (pairwise_cutMonths f hs)

/-! ## Properties of `cycleLoop` -/

theorem cycleLoop_some_eq_zip (cs : List Int) (p : Int) :
    cycleLoop cs (some p) =
      (((p :: cs).zip cs).filter (fun q => decide (180 < q.2 - q.1))).map Prod.snd := by
  induction cs generalizing p with
  | nil => simp [cycleLoop]
  | cons dt rest ih =>
    by_cases h : 180 < dt - p
    · simp [cycleLoop, List.zip_cons_cons, h, ih dt]
    · simp [cycleLoop, List.zip_cons_cons, h, ih dt]

theorem cycleLoop_head_gap (cs : List Int) (p : Int)
    (hs : List.Chain' (· < ·) (p :: cs)) :
    ∀ h ∈ (cycleLoop cs (some p)).head?, 180 < h - p := by
  induction cs generalizing p with
  | nil => simp [cycleLoop]
  | cons dt rest ih =>
    intro h hh
    have hpd : p < dt := (List.chain'_cons.mp hs).1
    have htl : List.Chain' (· < ·) (dt :: rest) := (List.chain'_cons.mp hs).2
    by_cases hgt : 180 < dt - p
    · simp only [cycleLoop, if_pos hgt, List.head?_cons, Option.mem_def,
        Option.some.injEq] at hh
      omega
    · simp only [cycleLoop, if_neg hgt] at hh
      have := ih dt htl h hh
      omega

theorem cycleLoop_some_chain (cs : List Int) (p : Int)
    (hs : List.Chain' (· < ·) (p :: cs)) :
    List.Chain' (fun a b => a < b ∧ 180 < b - a) (cycleLoop cs (some p)) := by
  induction cs generalizing p with
  | nil => simp [cycleLoop]
  | cons dt rest ih =>
    have htl : List.Chain' (· < ·) (dt :: rest) := (List.chain'_cons.mp hs).2
    by_cases hgt : 180 < dt - p
    · simp only [cycleLoop, if_pos hgt]
      refine List.chain'_cons'.mpr ⟨?_, ih dt htl⟩
      intro y hy
      have := cycleLoop_head_gap rest dt htl y hy
      exact ⟨by omega, this⟩
    · simp only [cycleLoop, if_neg hgt]
      exact ih dt htl

theorem cycleLoop_none_chain (cm : List Int) (hs : List.Chain' (· < ·) cm) :
    List.Chain' (fun a b => a < b ∧ 180 < b - a) (cycleLoop cm none) := by
  cases cm with
  | nil => simp [cycleLoop]
  | cons c cs =>
    show List.Chain' _ (c :: cycleLoop cs (some c))
    refine List.chain'_cons'.mpr ⟨?_, cycleLoop_some_chain cs c hs⟩
    intro y hy
    have := cycleLoop_head_gap cs c hs y hy
    exact ⟨by omega, this⟩

theorem cycleLoop_none_pairwise (cm : List Int) (hs : List.Chain' (· < ·) cm) :
    List.Pairwise (fun a b => a < b ∧ 180 < b - a) (cycleLoop cm none) := by
  haveI : IsTrans Int (fun a b => a < b ∧ 180 < b - a) :=
    ⟨fun _ _ _ hab hbc => ⟨lt_trans hab.1 hbc.1, by omega⟩⟩
  exact List.chain'_iff_pairwise.mp (cycleLoop_none_chain cm hs)

theorem cycleLoop_coalesce (cs : List Int) (p : Int)
    (h : List.Chain' (fun a b => b - a ≤ 180) (p :: cs)) :
    cycleLoop cs (some p) = [] := by
  induction cs generalizing p with
  | nil => rfl
  | cons dt rest ih =>
    have h1 : dt - p ≤ 180 := (List.chain'_cons.mp h).1
    have h2 : List.Chain' (fun a b => b - a ≤ 180) (dt :: rest) := (List.chain'_cons.mp h).2
    simp only [cycleLoop, if_neg (by omega : ¬ 180 < dt - p)]
    exact ih dt h2

theorem pyLastN_sublist (l : List α) (n : Nat) : (pyLastN l n).Sublist l := by
  unfold pyLastN
  by_cases h : n = 0
  · simp [h]
  · simp only [if_neg h]
    exact List.drop_sublist _ _

theorem find_cut_cycles_pairwise (fedfunds : List (Int × ℚ)) (n : Nat)
    (hs : SortedFst fedfunds) :
    List.Pairwise (fun a b => a < b ∧ 180 < b - a) (find_cut_cycles fedfunds n) := by
  unfold find_cut_cycles
  by_cases hcm : (cutMonths fedfunds).isEmpty
  · simp [hcm]
  · simp only [hcm, Bool.false_eq_true, if_false]
    exact List.Pairwise.sublist (pyLastN_sublist _ _)
      (cycleLoop_none_pairwise _ (chain_cutMonths fedfunds hs))

/-! ## The claims about `find_cut_cycles` -/

/-- C1: the cut months are exactly the timestamps whose month-over-month
difference is strictly below the drop threshold `-0.05`, in chronological
order, the first observation carrying no difference; the cycle-start loop
emits a cut month exactly when it is the first one or its gap to the
immediately preceding cut month exceeds 180 days; a run of cut months each
within 180 days of its predecessor is coalesced to its first member. -/
theorem claim_C1 (fedfunds : List (Int × ℚ)) (hs : SortedFst fedfunds) :
    ((diff fedfunds).length = fedfunds.length - 1) ∧
    (∀ i a b, fedfunds[i]? = some a → fedfunds[i + 1]? = some b →
      (diff fedfunds)[i]? = some (b.1, b.2 - a.2)) ∧
    (∀ t, t ∈ cutMonths fedfunds ↔ ∃ d, (t, d) ∈ diff fedfunds ∧ d < -(5/100 : ℚ)) ∧
    List.Chain' (· < ·) (cutMonths fedfunds) ∧
    (∀ c cs, cycleLoop (c :: cs) none =
      c :: (((c :: cs).zip cs).filter (fun q => decide (180 < q.2 - q.1))).map Prod.snd) ∧
    (∀ c cs, List.Chain' (fun a b => b - a ≤ 180) (c :: cs) →
      cycleLoop (c :: cs) none = [c]) := by
  refine ⟨length_diff fedfunds, diff_getElem_some fedfunds, mem_cutMonths fedfunds,
    chain_cutMonths fedfunds hs, ?_, ?_⟩
  · intro c cs
    show c :: cycleLoop cs (some c) = _
    rw [cycleLoop_some_eq_zip]
  · intro c cs h
    show c :: cycleLoop cs (some c) = [c]
    rw [cycleLoop_coalesce cs c h]

theorem claim_C1_witness :
    (diff exFed).length = exFed.length - 1 ∧ List.Chain' (· < ·) (cutMonths exFed) :=
  ⟨(claim_C1 exFed (by decide)).1, (claim_C1 exFed (by decide)).2.2.2.1⟩

/-- C4: on a sorted rate series the returned cycle starts are strictly
increasing and pairwise more than 180 days apart, although the code compares
each cut month with the previous cut month rather than with the previously
emitted cycle start. -/
theorem claim_C4 (fedfunds : List (Int × ℚ)) (n : Nat) (hs : SortedFst fedfunds) :
    List.Pairwise (fun a b => a < b ∧ 180 < b - a) (find_cut_cycles fedfunds n) :=
  find_cut_cycles_pairwise fedfunds n hs

theorem claim_C4_witness :
    List.Pairwise (fun a b => a < b ∧ 180 < b - a) (find_cut_cycles exFed 3) :=
  claim_C4 exFed 3 (by decide)

/-- C5: for `n ≥ 1` at most `n` cycle starts are returned; they form a
suffix of the full cycle list (so, that list being increasing, they are the
chronologically most recent ones); when at most `n` cycles exist all are
returned, when more exist exactly `n` are, and the result is increasing. -/
theorem claim_C5 (fedfunds : List (Int × ℚ)) (n : Nat) (hn : 1 ≤ n)
    (hs : SortedFst fedfunds) :
    (find_cut_cycles fedfunds n).length ≤ n ∧
    find_cut_cycles fedfunds n <:+ cycleLoop (cutMonths fedfunds) none ∧
    ((cycleLoop (cutMonths fedfunds) none).length ≤ n →
      find_cut_cycles fedfunds n = cycleLoop (cutMonths fedfunds) none) ∧
    (n ≤ (cycleLoop (cutMonths fedfunds) none).length →
      (find_cut_cycles fedfunds n).length = n) ∧
    List.Pairwise (· < ·) (find_cut_cycles fedfunds n) := by
  have hincr : List.Pairwise (· < ·) (find_cut_cycles fedfunds n) :=
    (find_cut_cycles_pairwise fedfunds n hs).imp (fun h => h.1)
  unfold find_cut_cycles
  by_cases hcm : (cutMonths fedfunds).isEmpty
  · have : cutMonths fedfunds = [] := List.isEmpty_iff.mp hcm
    simp only [hcm, if_true, this, cycleLoop]
    refine ⟨by simp, by simp, fun _ => rfl, ?_, by simp⟩
    simp only [List.length_nil]
    omega
  · simp only [hcm, Bool.false_eq_true, if_false]
    unfold pyLastN
    rw [if_neg (by omega : ¬ n = 0)]
    refine ⟨?_, List.drop_suffix _ _, ?_, ?_, ?_⟩
    · rw [List.length_drop]; omega
    · intro hle
      have : (cycleLoop (cutMonths fedfunds) none).length - n = 0 := by omega
      rw [this, List.drop_zero]
    · intro hge
      rw [List.length_drop]; omega
    · have := hincr
      unfold find_cut_cycles at this
      rw [if_neg (by simpa using hcm)] at this
      unfold pyLastN at this
      rwa [if_neg (by omega : ¬ n = 0)] at this

theorem claim_C5_witness :
    (find_cut_cycles exFed 1).length ≤ 1 ∧
    List.Pairwise (· < ·) (find_cut_cycles exFed 1) :=
  ⟨(claim_C5 exFed 1 (by decide) (by decide)).1,
   (claim_C5 exFed 1 (by decide) (by decide)).2.2.2.2⟩

/-- C7: a rate series with fewer than two observations yields no differences
and no cycles; when no difference lies strictly below the threshold the
result is empty; and an empty cycle list is terminal: the module stops
(`appMain` is `none`) and no lag or growth row is computed. -/
theorem claim_C7 (fedfunds rsxfs pce : List (Int × ℚ))
    (mortgage dprime : List (Int × Option ℚ)) (n : Nat) :
    (fedfunds.length < 2 → find_cut_cycles fedfunds n = []) ∧
    ((∀ p ∈ diff fedfunds, -(5/100 : ℚ) ≤ p.2) → find_cut_cycles fedfunds n = []) ∧
    (find_cut_cycles fedfunds 3 = [] →
      appMain fedfunds mortgage dprime rsxfs pce = none) := by
  refine ⟨?_, ?_, ?_⟩
  · intro hlen
    have hdiff : diff fedfunds = [] := by
      match fedfunds with
      | [] => rfl
      | [a] => rfl
      | a :: b :: rest => exact absurd hlen (by simp)
    unfold find_cut_cycles
    rw [show cutMonths fedfunds = [] by simp [cutMonths, hdiff]]
    rfl
  · intro hthr
    have hcm : cutMonths fedfunds = [] := by
      unfold cutMonths
      rw [List.filter_eq_nil_iff.mpr ?_]
      · rfl
      · intro p hp
        simpa using not_lt.mpr (hthr p hp)
    unfold find_cut_cycles
    rw [hcm]
    rfl
  · intro hempty
    unfold appMain
    rw [hempty]
    rfl

theorem claim_C7_witness :
    find_cut_cycles [((0 : Int), (5 : ℚ))] 3 = [] ∧
    appMain [((0 : Int), (5 : ℚ))] [] [] [] [] = none := by
  have h := claim_C7 [((0 : Int), (5 : ℚ))] [] [] [] [] 3
  exact ⟨h.1 (by decide), h.2.2 (h.1 (by decide))⟩

/-! ## Properties of the first-qualifying-index scan -/

theorem firstIdxFrom_eq_none_iff (p : α → Bool) (l : List α) (j : Nat) :
    firstIdxFrom p l j = none ↔ ∀ a ∈ l, p a = false := by
  induction l generalizing j with
  | nil => simp [firstIdxFrom]
  | cons a as ih =>
    by_cases h : p a
    · simp [firstIdxFrom, h]
    · have hf : p a = false := by revert h; cases p a <;> simp
      simp [firstIdxFrom, h, ih (j + 1), hf]

theorem firstIdxFrom_succ (p : α → Bool) (l : List α) (j : Nat) :
    firstIdxFrom p l (j + 1) = Option.map (· + 1) (firstIdxFrom p l j) := by
  induction l generalizing j with
  | nil => simp [firstIdxFrom]
  | cons a as ih =>
    by_cases h : p a
    · simp [firstIdxFrom, h]
    · simp only [firstIdxFrom, if_neg h]
      exact ih (j + 1)

theorem firstIdxFrom_zero_eq_some_iff (p : α → Bool) (l : List α) (j : Nat) :
    firstIdxFrom p l 0 = some j ↔
      (∃ a, l[j]? = some a ∧ p a = true) ∧
        ∀ i, i < j → ∀ a, l[i]? = some a → p a = false := by
  induction l generalizing j with
  | nil => simp [firstIdxFrom]
  | cons a as ih =>
    by_cases h : p a
    · simp only [firstIdxFrom, if_pos h]
      constructor
      · intro hj
        have hj0 : j = 0 := by
          have := Option.some.inj hj
          omega
        subst hj0
        exact ⟨⟨a, by simp, h⟩, fun i hi => by omega⟩
      · rintro ⟨⟨b, hb, hpb⟩, hall⟩
        by_contra hne
        have hj0 : j ≠ 0 := fun h0 => hne (by rw [h0])
        have := hall 0 (by omega) a (by simp)
        rw [h] at this
        cases this
    · simp only [firstIdxFrom, if_neg h]
      rw [show (1 : Nat) = 0 + 1 from rfl, firstIdxFrom_succ]
      constructor
      · intro hj
        obtain ⟨j', hj', rfl⟩ := Option.map_eq_some'.mp hj
        obtain ⟨⟨b, hb, hpb⟩, hall⟩ := (ih j').mp hj'
        refine ⟨⟨b, by simpa using hb, hpb⟩, ?_⟩
        intro i hi b' hb'
        cases i with
        | zero =>
          rw [List.getElem?_cons_zero] at hb'
          cases hb'
          revert h
          cases p a <;> simp
        | succ i' =>
          rw [List.getElem?_cons_succ] at hb'
          exact hall i' (by omega) b' hb'
      · rintro ⟨⟨b, hb, hpb⟩, hall⟩
        cases j with
        | zero =>
          rw [List.getElem?_cons_zero] at hb
          cases hb
          rw [hpb] at h
          cases h rfl
        | succ j' =>
          rw [List.getElem?_cons_succ] at hb
          have : firstIdxFrom p as 0 = some j' := by
            refine (ih j').mpr ⟨⟨b, hb, hpb⟩, ?_⟩
            intro i hi b' hb'
            exact hall (i + 1) (by omega) b' (by simpa using hb')
          rw [this]
          rfl

/-! ## Properties of `asof` and `postWindow` -/

theorem getLast?_eq_of_fst_max {β : Type} (l : List (Int × β)) (p : Int × β)
    (hs : SortedFst l) (hm : p ∈ l) (hmax : ∀ q ∈ l, q.1 ≤ p.1) :
    l.getLast? = some p := by
  induction l with
  | nil => cases hm
  | cons a l' ih =>
    cases l' with
    | nil =>
      rcases List.mem_cons.mp hm with h | h
      · rw [h]; rfl
      · cases h
    | cons b l'' =>
      rw [List.getLast?_cons_cons]
      rcases List.mem_cons.mp hm with h | hm'
      · exfalso
        have h1 : a.1 < b.1 := (List.pairwise_cons.mp hs).1 b (by simp)
        have h2 : b.1 ≤ p.1 := hmax b (by simp)
        rw [← h] at h1
        omega
      · exact ih (List.pairwise_cons.mp hs).2 hm'
          (fun q hq => hmax q (List.mem_cons_of_mem _ hq))

theorem asof_eq_none_iff (series : List (Int × Option ℚ)) (dt : Int) :
    asof series dt = none ↔ ∀ t v, (t, some v) ∈ series → dt < t := by
  constructor
  · intro h t v hm
    by_contra hnot
    push_neg at hnot
    have hmf : (t, some v) ∈ series.filter (fun p => decide (p.1 ≤ dt) && p.2.isSome) :=
      List.mem_filter.mpr ⟨hm, by simp [hnot]⟩
    unfold asof at h
    cases hg : (series.filter (fun p => decide (p.1 ≤ dt) && p.2.isSome)).getLast? with
    | none =>
      rw [List.getLast?_eq_none_iff.mp hg] at hmf
      cases hmf
    | some r =>
      have hrf : r ∈ series.filter (fun p => decide (p.1 ≤ dt) && p.2.isSome) :=
        List.mem_of_mem_getLast? (by rw [hg]; rfl)
      have hrs : r.2.isSome := by
        have := (List.mem_filter.mp hrf).2
        simp only [Bool.and_eq_true] at this
        exact this.2
      obtain ⟨w, hw⟩ := Option.isSome_iff_exists.mp hrs
      rw [hg] at h
      have h2 : r.2 = none := h
      rw [hw] at h2
      cases h2
  · intro h
    have hf : series.filter (fun p => decide (p.1 ≤ dt) && p.2.isSome) = [] := by
      refine List.filter_eq_nil_iff.mpr ?_
      intro a ha hpa
      simp only [Bool.and_eq_true, decide_eq_true_eq] at hpa
      obtain ⟨hle, hsome⟩ := hpa
      obtain ⟨w, hw⟩ := Option.isSome_iff_exists.mp hsome
      have hmem : (a.1, some w) ∈ series := by
        rw [← hw]
        exact ha
      have := h a.1 w hmem
      omega
    unfold asof
    rw [hf]
    rfl

theorem asof_eq_some_of_latest (series : List (Int × Option ℚ)) (dt t : Int) (v : ℚ)
    (hs : SortedFst series) (hm : (t, some v) ∈ series) (hle : t ≤ dt)
    (hmax : ∀ t' v', (t', some v') ∈ series → t' ≤ dt → t' ≤ t) :
    asof series dt = some v := by
  have hsf : SortedFst (series.filter (fun p => decide (p.1 ≤ dt) && p.2.isSome)) :=
    List.Pairwise.sublist (List.filter_sublist _) hs
  have hmf : (t, some v) ∈ series.filter (fun p => decide (p.1 ≤ dt) && p.2.isSome) :=
    List.mem_filter.mpr ⟨hm, by simp [hle]⟩
  have hmaxf : ∀ q ∈ series.filter (fun p => decide (p.1 ≤ dt) && p.2.isSome),
      q.1 ≤ (t, some v).1 := by
    intro q hq
    obtain ⟨hqs, hqp⟩ := List.mem_filter.mp hq
    obtain ⟨qt, qv⟩ := q
    simp only [Bool.and_eq_true, decide_eq_true_eq, Option.isSome_iff_exists] at hqp
    obtain ⟨hle', w, hw⟩ := hqp
    subst hw
    exact hmax qt w hqs hle'
  unfold asof
  rw [getLast?_eq_of_fst_max _ (t, some v) hsf hmf hmaxf]
  rfl

theorem head_filter_ge {β : Type} (l : List (Int × β)) (dt : Int) (x : β)
    (hs : SortedFst l) (hm : (dt, x) ∈ l) :
    (l.filter (fun p => decide (dt ≤ p.1))).head? = some (dt, x) := by
  induction l with
  | nil => cases hm
  | cons a l' ih =>
    rcases List.mem_cons.mp hm with h | hm'
    · rw [List.filter_cons, if_pos (by rw [← h]; simp)]
      rw [← h]
      rfl
    · have ha : a.1 < dt := by
        have := (List.pairwise_cons.mp hs).1 (dt, x) hm'
        simpa using this
      rw [List.filter_cons, if_neg (by simp; omega)]
      exact ih (List.pairwise_cons.mp hs).2 hm'

theorem postWindow_getElem_zero (series : List (Int × Option ℚ)) (dt : Int) (x : Option ℚ)
    (hs : SortedFst series) (hm : (dt, x) ∈ series) :
    (postWindow series dt)[0]? = some (dt, x) := by
  unfold postWindow
  rw [List.getElem?_take, if_pos (by omega), ← List.head?_eq_getElem?]
  exact head_filter_ge series dt x hs hm

/-! ## Characterizations of `passThroughLag` -/

theorem passThroughLag_na_iff (series : List (Int × Option ℚ)) (dt : Int) :
    passThroughLag series dt = LagResult.na ↔ asof series dt = none := by
  unfold passThroughLag
  split
  · next h => simp [h]
  · next base h =>
    rw [h]
    split
    · next k _ => exact iff_of_false (fun hc => LagResult.noConfusion hc) (by simp)
    · next _ => exact iff_of_false (fun hc => LagResult.noConfusion hc) (by simp)

theorem passThroughLag_lag_iff (series : List (Int × Option ℚ)) (dt : Int) (base : ℚ)
    (hb : asof series dt = some base) (j : Nat) :
    passThroughLag series dt = LagResult.lag j ↔
      ((∃ a, (postWindow series dt)[j]? = some a ∧ qualifies base a.2 = true) ∧
        ∀ i, i < j → ∀ a, (postWindow series dt)[i]? = some a →
          qualifies base a.2 = false) := by
  unfold passThroughLag
  simp only [hb]
  split
  · next k hidx =>
    rw [firstIdxFrom_zero_eq_some_iff] at hidx
    constructor
    · intro hkj
      have hk : k = j := LagResult.lag.inj hkj
      subst hk
      exact hidx
    · rintro ⟨⟨a, ha, hq⟩, hall⟩
      obtain ⟨⟨b, hbk, hpb⟩, hallk⟩ := hidx
      have hkj : k = j := by
        rcases Nat.lt_trichotomy k j with h | h | h
        · have := hall k h b hbk
          rw [hpb] at this
          cases this
        · exact h
        · have := hallk j h a ha
          rw [hq] at this
          cases this
      rw [hkj]
  · next hidx =>
    refine iff_of_false (fun hc => LagResult.noConfusion hc) ?_
    rintro ⟨⟨a, ha, hq⟩, -⟩
    have := (firstIdxFrom_eq_none_iff _ _ _).mp hidx a (List.getElem?_mem ha)
    rw [hq] at this
    cases this

theorem passThroughLag_exceeds_iff (series : List (Int × Option ℚ)) (dt : Int) (base : ℚ)
    (hb : asof series dt = some base) :
    passThroughLag series dt = LagResult.exceedsWindow ↔
      ∀ a ∈ postWindow series dt, qualifies base a.2 = false := by
  unfold passThroughLag
  simp only [hb]
  split
  · next k hidx =>
    refine iff_of_false (fun hc => LagResult.noConfusion hc) ?_
    intro hall
    obtain ⟨⟨b, hbk, hpb⟩, -⟩ := (firstIdxFrom_zero_eq_some_iff _ _ _).mp hidx
    have := hall b (List.getElem?_mem hbk)
    rw [hpb] at this
    cases this
  · next hidx =>
    exact iff_of_true rfl ((firstIdxFrom_eq_none_iff _ _ _).mp hidx)

theorem passThroughLag_lag_lt (series : List (Int × Option ℚ)) (dt : Int) (j : Nat)
    (h : passThroughLag series dt = LagResult.lag j) : j < 24 := by
  unfold passThroughLag at h
  split at h
  · next => exact LagResult.noConfusion h
  · next base hb =>
    split at h
    · next k hidx =>
      have hkj : k = j := LagResult.lag.inj h
      obtain ⟨⟨a, ha, -⟩, -⟩ := (firstIdxFrom_zero_eq_some_iff _ _ _).mp hidx
      have hlt : k < (postWindow series dt).length := (List.getElem?_eq_some.mp ha).1
      have hle : (postWindow series dt).length ≤ 24 := by
        unfold postWindow
        rw [List.length_take]
        exact min_le_left _ _
      omega
    · next hidx => exact LagResult.noConfusion h

/-! ## The claims about the lag computation -/

/-- C2: the base is the last observed (non-missing) value at or before the
cycle start; with no such value the result is the `n/a` sentinel; otherwise
the result is the zero-based offset of the first of the up-to-24
observations on or after the cycle start whose value minus base is at most
`-0.25`, the `>24 mo` sentinel when none qualifies, and a numeric lag is
below 24; the worked example `[6.5, 6.4, 6.3, 6.2]` with base `6.5` has
lag 3. -/
theorem claim_C2 (series : List (Int × Option ℚ)) (dt : Int) (hs : SortedFst series) :
    (asof series dt = none ↔ ∀ t v, (t, some v) ∈ series → dt < t) ∧
    (asof series dt = none → passThroughLag series dt = LagResult.na) ∧
    (∀ t v, (t, some v) ∈ series → t ≤ dt →
      (∀ t' v', (t', some v') ∈ series → t' ≤ dt → t' ≤ t) →
      asof series dt = some v) ∧
    (∀ base, asof series dt = some base →
      (∀ j, passThroughLag series dt = LagResult.lag j ↔
        ((∃ a, (postWindow series dt)[j]? = some a ∧ qualifies base a.2 = true) ∧
          ∀ i, i < j → ∀ a, (postWindow series dt)[i]? = some a →
            qualifies base a.2 = false)) ∧
      (passThroughLag series dt = LagResult.exceedsWindow ↔
        ∀ a ∈ postWindow series dt, qualifies base a.2 = false)) ∧
    (∀ j, passThroughLag series dt = LagResult.lag j → j < 24) ∧
    passThroughLag exLag 0 = LagResult.lag 3 := by
  refine ⟨asof_eq_none_iff series dt, ?_, ?_, ?_,
    passThroughLag_lag_lt series dt,
    by norm_num [passThroughLag, asof, postWindow, firstIdxFrom, qualifies, exLag,
      List.filter, List.getLast?, List.take]⟩
  · intro h
    exact (passThroughLag_na_iff series dt).mpr h
  · intro t v hm hle hmax
    exact asof_eq_some_of_latest series dt t v hs hm hle hmax
  · intro base hb
    exact ⟨passThroughLag_lag_iff series dt base hb,
      passThroughLag_exceeds_iff series dt base hb⟩

theorem claim_C2_witness : passThroughLag exLag 0 = LagResult.lag 3 :=
  (claim_C2 exLag 0 (by decide)).2.2.2.2.2

/-- C9: when the series contains an observation exactly at the cycle start,
`asof` returns that observation's value as the base (when it is not
missing), so the offset-0 difference is zero and a numeric lag of 0 is
impossible. -/
theorem claim_C9 (series : List (Int × Option ℚ)) (dt : Int) (x : Option ℚ)
    (hs : SortedFst series) (hm : (dt, x) ∈ series) :
    (∀ v, x = some v → asof series dt = some v) ∧
    passThroughLag series dt ≠ LagResult.lag 0 := by
  constructor
  · rintro v rfl
    exact asof_eq_some_of_latest series dt dt v hs hm le_rfl (fun t' v' _ h => h)
  · intro hlag
    cases hb : asof series dt with
    | none =>
      have := (passThroughLag_na_iff series dt).mpr hb
      rw [hlag] at this
      cases this
    | some base =>
      obtain ⟨⟨a, ha, hq⟩, -⟩ := (passThroughLag_lag_iff series dt base hb 0).mp hlag
      rw [postWindow_getElem_zero series dt x hs hm] at ha
      cases ha
      cases x with
      | none => simp [qualifies] at hq
      | some v =>
        have hbase : base = v := by
          have h2 := asof_eq_some_of_latest series dt dt v hs hm le_rfl
            (fun t' v' _ h => h)
          rw [hb] at h2
          exact Option.some.inj h2
        rw [hbase] at hq
        simp only [qualifies, decide_eq_true_eq] at hq
        linarith

theorem claim_C9_witness :
    asof exAtStart 0 = some 5 ∧ passThroughLag exAtStart 0 ≠ LagResult.lag 0 :=
  ⟨(claim_C9 exAtStart 0 (some 5) (by decide) (by simp [exAtStart])).1 5 rfl,
   (claim_C9 exAtStart 0 (some 5) (by decide) (by simp [exAtStart])).2⟩

/-- C10: a missing observation in the lookahead window is never the
qualifying decline (the selected entry always carries a value), yet it
occupies an offset: all entries before the returned offset, missing ones
included, fail the test, and inserting a missing observation before the
qualifying one raises the lag from 1 to 2 in the concrete pair. -/
theorem claim_C10 (series : List (Int × Option ℚ)) (dt : Int) :
    (∀ base j, asof series dt = some base → passThroughLag series dt = LagResult.lag j →
      ∃ t v, (postWindow series dt)[j]? = some (t, some v) ∧ v - base ≤ -(1/4 : ℚ) ∧
        ∀ i, i < j → ∀ a, (postWindow series dt)[i]? = some a →
          qualifies base a.2 = false) ∧
    passThroughLag exLagNaN 0 = LagResult.lag 2 ∧
    passThroughLag exLagNoNaN 0 = LagResult.lag 1 := by
  refine ⟨?_,
    by norm_num [passThroughLag, asof, postWindow, firstIdxFrom, qualifies, exLagNaN,
      List.filter, List.getLast?, List.take],
    by norm_num [passThroughLag, asof, postWindow, firstIdxFrom, qualifies, exLagNoNaN,
      List.filter, List.getLast?, List.take]⟩
  intro base j hb hlag
  obtain ⟨⟨a, ha, hq⟩, hall⟩ := (passThroughLag_lag_iff series dt base hb j).mp hlag
  obtain ⟨t, av⟩ := a
  cases av with
  | none => simp [qualifies] at hq
  | some v =>
    refine ⟨t, v, ha, ?_, hall⟩
    simpa [qualifies] using hq

theorem claim_C10_witness :
    passThroughLag exLagNaN 0 = LagResult.lag 2 ∧
    passThroughLag exLagNoNaN 0 = LagResult.lag 1 :=
  ⟨(claim_C10 exLagNaN 0).2.1, (claim_C10 exLagNoNaN 0).2.2⟩

/-! ## The claims about the growth computation -/

/-- C3: the pre-window holds the observations in
`(cycleStart - 12 months, cycleStart]` and the post-window those in
`(cycleStart, cycleStart + 12 months]`; the result is absent exactly when
either window is empty or the pre-window mean is zero, and otherwise equals
`(mean(post) - mean(pre)) / mean(pre) * 100`; pre-mean 100 with post-mean
110 gives `+10.0%`. -/
theorem claim_C3 (series : List (Int × ℚ)) (dt : Int) :
    (∀ p, p ∈ preWindow series dt ↔
      p ∈ series ∧ addMonths dt (-12) < p.1 ∧ p.1 ≤ dt) ∧
    (∀ p, p ∈ postWindowG series dt ↔
      p ∈ series ∧ dt < p.1 ∧ p.1 ≤ addMonths dt 12) ∧
    (prePostGrowth series dt = none ↔
      postWindowG series dt = [] ∨ preWindow series dt = [] ∨
        meanVals (preWindow series dt) = 0) ∧
    (∀ g, prePostGrowth series dt = some g →
      g = (meanVals (postWindowG series dt) - meanVals (preWindow series dt)) /
            meanVals (preWindow series dt) * 100) ∧
    prePostGrowth exGrowth 10957 = some 10 := by
  refine ⟨?_, ?_, ?_, ?_, ?_⟩
  · intro p
    simp [preWindow, List.mem_filter, and_assoc]
  · intro p
    simp [postWindowG, List.mem_filter, and_assoc]
  · simp only [prePostGrowth]
    split
    · next hcond =>
      refine iff_of_false (by simp) ?_
      rintro (h | h | h)
      · exact hcond.1 h
      · exact hcond.2.1 h
      · exact hcond.2.2 h
    · next hcond =>
      refine iff_of_true rfl ?_
      by_contra hno
      push_neg at hno
      exact hcond ⟨hno.1, hno.2.1, hno.2.2⟩
  · intro g hg
    simp only [prePostGrowth] at hg
    split at hg
    · next hcond => exact (Option.some.inj hg).symm
    · next hcond => cases hg
  · have h1 : addMonths 10957 12 = 11323 := by decide
    have h2 : addMonths 10957 (-12) = 10592 := by decide
    norm_num [prePostGrowth, preWindow, postWindowG, meanVals, exGrowth, h1, h2,
      List.filter]

theorem claim_C3_witness : prePostGrowth exGrowth 10957 = some 10 :=
  (claim_C3 exGrowth 10957).2.2.2.2

/-- C6: the growth division is evaluated only under the guard that both
windows are non-empty and the pre-window mean is non-zero; a zero pre-window
mean yields an absent result even when post-window data exists, so no
division by a zero or empty baseline occurs. -/
theorem claim_C6 (series : List (Int × ℚ)) (dt : Int) :
    (meanVals (preWindow series dt) = 0 → prePostGrowth series dt = none) ∧
    (∀ g, prePostGrowth series dt = some g →
      postWindowG series dt ≠ [] ∧ preWindow series dt ≠ [] ∧
      meanVals (preWindow series dt) ≠ 0 ∧
      g = (meanVals (postWindowG series dt) - meanVals (preWindow series dt)) /
            meanVals (preWindow series dt) * 100) ∧
    prePostGrowth exGrowthZero 10957 = none := by
  refine ⟨?_, ?_, ?_⟩
  · intro h0
    simp only [prePostGrowth]
    rw [if_neg (fun hc => hc.2.2 h0)]
  · intro g hg
    simp only [prePostGrowth] at hg
    split at hg
    · next hcond => exact ⟨hcond.1, hcond.2.1, hcond.2.2, (Option.some.inj hg).symm⟩
    · next hcond => cases hg
  · have h1 : addMonths 10957 12 = 11323 := by decide
    have h2 : addMonths 10957 (-12) = 10592 := by decide
    norm_num [prePostGrowth, preWindow, postWindowG, meanVals, exGrowthZero, h1, h2,
      List.filter]

theorem claim_C6_witness : prePostGrowth exGrowthZero 10957 = none :=
  (claim_C6 exGrowthZero 10957).2.2

end FredApp
